import Mathlib

/-!
Verification development for the markdown-to-HTML converter in
`markdownparser.py` (the final snapshot of the program; `__main__.py` is an
earlier snapshot of the same converter).  The Python source is shallowly
embedded: document text is a `List Char`, the regular expressions of the
converter are translated into explicit character-list matchers with the same
backtracking behaviour on the inputs the program feeds them, and the
block-level state machine of `parse_blocks` becomes an explicit fold over the
lines of the body with a `BState` record for its mutable variables.
-/

/-- Document text / fragments, as Python strings: a list of characters. -/
abbrev Str := List Char

/-- Python's `str.isspace` / regex `\s` character class (ASCII range, which is
all the program ever feeds it). -/
def pyIsSpace (c : Char) : Bool :=
  c = ' ' || c = '\t' || c = '\n' || c = '\r' || c = '\x0b' || c = '\x0c'

/-- Leading-whitespace removal, Python `str.lstrip()`. -/
def lstripL (s : Str) : Str := s.dropWhile pyIsSpace

/-- Trailing-whitespace removal, Python `str.rstrip()`. -/
def rstripL (s : Str) : Str := (s.reverse.dropWhile pyIsSpace).reverse

/-- Python `str.strip()`: drop whitespace from both ends. -/
def pyStripL (s : Str) : Str := rstripL (lstripL s)

/-- Does `s` start with `pat`?  (Python `str.startswith`, also the anchored
part of `re.match`.) -/
def swL : Str → Str → Bool
  | [], _ => true
  | _ :: _, [] => false
  | p :: ps, c :: cs => p = c && swL ps cs

/-- Python `"sub" in s` substring test. -/
def containsSubL (pat : Str) : Str → Bool
  | [] => swL pat []
  | c :: rest => swL pat (c :: rest) || containsSubL pat rest

/-- Python `s.split("\n")` (note: the empty string splits to `[""]`). -/
def splitLinesL : Str → List Str
  | [] => [[]]
  | c :: rest =>
    match splitLinesL rest with
    | h :: t => if c = '\n' then [] :: h :: t else (c :: h) :: t
    | [] => if c = '\n' then [[], []] else [[c]]

/-- Python `sep.join(xs)`. -/
def joinSepL (sep : Str) : List Str → Str
  | [] => []
  | [x] => x
  | x :: y :: t => x ++ sep ++ joinSepL sep (y :: t)

/-- `"\n".join`. -/
def joinNl (xs : List Str) : Str := joinSepL ['\n'] xs

/-- `" ".join`. -/
def joinSp (xs : List Str) : Str := joinSepL [' '] xs

/-- Python `str.replace` (global, non-overlapping, left to right), with a fuel
argument bounding the number of scan steps; called with the length of the
string, which always suffices since every step consumes at least one
character. -/
def pyReplaceFuel (pat repl : Str) : Nat → Str → Str
  | 0, s => s
  | _ + 1, [] => []
  | fuel + 1, c :: rest =>
    if swL pat (c :: rest) ∧ pat ≠ [] then
      repl ++ pyReplaceFuel pat repl fuel ((c :: rest).drop pat.length)
    else
      c :: pyReplaceFuel pat repl fuel rest

/-- Python `str.replace`. -/
def pyReplaceL (s pat repl : Str) : Str := pyReplaceFuel pat repl s.length s

/-! ### The inline substitution pipeline (`MarkdownParser.parse_inline`) -/

/-- Lazy search for `(.+?)`/`(.*?)` followed by the literal `close`: returns
the shortest group (of length at least `minLen`, no newline inside, matching
the regex `.`) such that `close` immediately follows, together with the text
after `close`; `none` if there is no such split. -/
def findLazyClose (close : Str) : Nat → Str → Option (Str × Str)
  | 0, cs =>
    if swL close cs then some ([], cs.drop close.length)
    else
      match cs with
      | [] => none
      | c :: rest =>
        if c = '\n' then none
        else (findLazyClose close 0 rest).map (fun gr => (c :: gr.1, gr.2))
  | _ + 1, [] => none
  | n + 1, c :: rest =>
    if c = '\n' then none
    else (findLazyClose close n rest).map (fun gr => (c :: gr.1, gr.2))

/-- One `re.sub` pass for a pattern of shape `open (.+?) close` (or `(.*?)`
when `minLen = 0`), replacement `pre ++ group ++ post`: scans left to right,
non-overlapping, continuing after each replacement.  `fuel` bounds the scan
steps; initialised with the string length, which suffices because every
recursive call drops at least one character. -/
def subLazyFuel (o1 : Char) (orest close : Str) (minLen : Nat)
    (pre post : Str) : Nat → Str → Str
  | 0, cs => cs
  | _ + 1, [] => []
  | fuel + 1, c :: rest =>
    if swL (o1 :: orest) (c :: rest) then
      match findLazyClose close minLen (rest.drop orest.length) with
      | some gr => pre ++ gr.1 ++ post ++ subLazyFuel o1 orest close minLen pre post fuel gr.2
      | none => c :: subLazyFuel o1 orest close minLen pre post fuel rest
    else c :: subLazyFuel o1 orest close minLen pre post fuel rest

/-- Group-1 search for the bracket patterns `\[(.+?)\]\((.+?)\)` after the
opening bracket has been consumed: the first group grows lazily; at each
boundary where `](` follows a non-empty group the second group is searched
lazily for a closing `)`; failure of the inner search extends the first group
(regex backtracking). -/
def findLinkBody (g1acc : Str) : Str → Option (Str × Str × Str)
  | [] => none
  | c :: rest =>
    if c = '\n' then none
    else
      match c, rest with
      | ']', '(' :: rest2 =>
        if g1acc ≠ [] then
          match findLazyClose [')'] 1 rest2 with
          | some gr => some (g1acc.reverse, gr.1, gr.2)
          | none => findLinkBody (']' :: g1acc) rest
        else findLinkBody (']' :: g1acc) rest
      | _, _ => findLinkBody (c :: g1acc) rest

/-- One `re.sub` pass for the two-group patterns (image and link):
replacement `a ++ group2 ++ b ++ group1 ++ e`. -/
def subPairFuel (o1 : Char) (orest : Str) (a b e : Str) : Nat → Str → Str
  | 0, cs => cs
  | _ + 1, [] => []
  | fuel + 1, c :: rest =>
    if swL (o1 :: orest) (c :: rest) then
      match findLinkBody [] (rest.drop orest.length) with
      | some g => a ++ g.2.1 ++ b ++ g.1 ++ e ++ subPairFuel o1 orest a b e fuel g.2.2
      | none => c :: subPairFuel o1 orest a b e fuel rest
    else c :: subPairFuel o1 orest a b e fuel rest

/-- `MarkdownParser.parse_inline`: bold, italic, image, link, inline code, in
that order, each a single left-to-right pass over the whole current text. -/
def parse_inline (text : Str) : Str :=
  let t1 := subLazyFuel '*' (("*").data) (("**").data) 1
    (("<strong class=\"font-bold\">").data) (("</strong>").data) text.length text
  let t2 := subLazyFuel '*' [] (("*").data) 1
    (("<em class=\"italic\">").data) (("</em>").data) t1.length t1
  let t3 := subPairFuel '!' (("[").data)
    (("<img src=\"").data) (("\" alt=\"").data) (("\" />").data) t2.length t2
  let t4 := subPairFuel '[' []
    (("<a href=\"").data) (("\" class=\"underline\">").data) (("</a>").data) t3.length t3
  subLazyFuel '`' [] (("`").data) 0
    (("<code class=\"bg-slate-300\">").data) (("</code>").data) t4.length t4

/-! ### The line-level matchers (the `header` / `unordered_list` /
`ordered_list` regexes under `re.match`), exact on the newline-free lines the
program feeds them -/

/-- Regex `^(#{1,6})\s(.+)$` under `re.match`: some (level, group 2). -/
def matchHeader (line : Str) : Option (Nat × Str) :=
  let n := (line.takeWhile (fun c => c = '#')).length
  if 1 ≤ n ∧ n ≤ 6 then
    match line.drop n with
    | c :: rest =>
      if pyIsSpace c ∧ rest ≠ [] ∧ rest.contains '\n' = false then some (n, rest) else none
    | [] => none
  else none

/-- Regex `^(\s*)[-*]\s(.+)$` under `re.match`: some (indent length, item
text). -/
def matchUL (line : Str) : Option (Nat × Str) :=
  let w := line.takeWhile pyIsSpace
  match line.dropWhile pyIsSpace with
  | m :: c :: rest =>
    if (m = '-' ∨ m = '*') ∧ pyIsSpace c ∧ rest ≠ [] ∧ rest.contains '\n' = false then
      some (w.length, rest)
    else none
  | _ => none

/-- Regex `^(\s*)(\d+)\.\s(.+)$` under `re.match`: some (indent length, item
text). -/
def matchOL (line : Str) : Option (Nat × Str) :=
  let w := line.takeWhile pyIsSpace
  let r := line.dropWhile pyIsSpace
  let ds := r.takeWhile Char.isDigit
  if ds ≠ [] then
    match r.drop ds.length with
    | '.' :: c :: rest =>
      if pyIsSpace c ∧ rest ≠ [] ∧ rest.contains '\n' = false then some (w.length, rest)
      else none
    | _ => none
  else none

/-! ### The list stack manager and `MarkdownParser.parse_line` -/

/-- Closing tag of a list frame (`</ol>` or `</ul>` per the frame's ordered
flag). -/
def closeTagOf (f : Nat × Bool) : Str :=
  if f.2 then ("</ol>").data else ("</ul>").data

/-- Opening tag emitted when a new list frame is pushed. -/
def openTagOf (is_ordered : Bool) : Str :=
  if is_ordered then ("<ol class=\"list-decimal list-inside\">").data
  else ("<ul class=\"list-disc list-inside\">").data

/-- The `while self.current_list_stack and self.current_list_stack[-1][0] >
indent` loop of `parse_line`: pops frames deeper than `indent`, returning the
closing tags in pop order and the remaining stack.  The stack is stored with
the top frame at the head. -/
def popDeeper : List (Nat × Bool) → Nat → List Str × List (Nat × Bool)
  | [], _ => ([], [])
  | (d, b) :: rest, indent =>
    if indent < d then
      (closeTagOf (d, b) :: (popDeeper rest indent).1, (popDeeper rest indent).2)
    else ([], (d, b) :: rest)

/-- The list-item branch of `parse_line` (source lines 62-82). -/
def listPart (stack : List (Nat × Bool)) (indent : Nat) (content : Str)
    (is_ordered : Bool) : List (Nat × Bool) × Str :=
  let closes := (popDeeper stack indent).1
  let st := (popDeeper stack indent).2
  let push : Bool := match st with
    | [] => true
    | (d, _) :: _ => decide (d < indent)
  let opens := if push then [openTagOf is_ordered] else []
  let st2 := if push then (indent, is_ordered) :: st else st
  (st2, joinNl (closes ++ opens ++ [("<li>").data ++ parse_inline content ++ ("</li>").data]))

/-- The header HTML built by `parse_line` (source lines 50-57). -/
def headerHtml (level : Nat) (content : Str) : Str :=
  let headersize :=
    if level = 1 then ("text-6xl").data
    else if level = 2 then ("text-4xl").data
    else ("text-2xl").data
  let headerstyle := headersize ++ (" text-red-900 mb-5 font-black uppercase").data
  ("<h").data ++ (Nat.repr level).data ++ (" class=\"").data ++ headerstyle ++ ("\">").data
    ++ parse_inline content ++ ("</h").data ++ (Nat.repr level).data ++ (">").data

/-- `MarkdownParser.parse_line`: returns the updated list stack together with
the emitted HTML fragment (the empty string models Python's `''`). -/
def parse_line (stack : List (Nat × Bool)) (line : Str) : List (Nat × Bool) × Str :=
  match matchHeader line with
  | some lg => (stack, headerHtml lg.1 lg.2)
  | none =>
    match matchUL line, matchOL line with
    | some ic, o => listPart stack ic.1 ic.2 o.isSome
    | none, some ic => listPart stack ic.1 ic.2 true
    | none, none =>
      if stack ≠ [] then
        ([], joinNl (stack.map closeTagOf) ++ '\n' :: parse_inline line)
      else
        (stack, if pyStripL line ≠ [] then parse_inline line else [])

/-! ### The block segmenter (`MarkdownParser.parse_blocks`, loop part) -/

/-- The mutable variables of `parse_blocks` (and the instance field
`self.current_list_stack`), as one state record. -/
structure BState where
  blocks : List Str
  current_block : List Str
  in_code_blocks : Bool
  code_content : List Str
  language : Str
  stack : List (Nat × Bool)
deriving DecidableEq

/-- Fresh parser / start of `parse_blocks`. -/
def initState : BState := ⟨[], [], false, [], [], []⟩

/-- The fence-delimiter test of the segmenter, `line.startswith('```')`. -/
def fenceTok : Str := ("```").data

/-- Is a line a list item (the lookahead used for `next_line_is_list`)? -/
def isListLine (l : Str) : Bool := (matchUL l).isSome || (matchOL l).isSome

/-- The `while self.current_list_stack: ... pop()` closing-tag block, joined
with newlines as the source does. -/
def closeAllTags (stack : List (Nat × Bool)) : Str := joinNl (stack.map closeTagOf)

/-- Flush of the paragraph buffer: space-join, and wrap in a paragraph tag
unless the joined content already starts with `<h`, `<ol` or `<ul`. -/
def badPref (x : Str) : Bool :=
  swL (("<h").data) x || swL (("<ol").data) x || swL (("<ul").data) x

/-- The paragraph flush (`content = ' '.join(current_block)` plus the
prefix-heuristic `<p>` wrap). -/
def wrapFlush (cb : List Str) : Str :=
  let content := joinSp cb
  if badPref content then content
  else ("<p class=\"mb-5 text-justify\">").data ++ content ++ ("</p>").data

/-- The `<pre><code>` block emitted when a fence closes. -/
def codeBlockHtml (language : Str) (code_content : List Str) : Str :=
  ("<pre>\n  <code class=\"language-").data ++ language ++ ("\">\n    ").data
    ++ joinSepL (("\n    ").data) code_content ++ ("\n  </code>\n</pre>").data

/-- One iteration of the `while i < len(lines)` loop of `parse_blocks`;
`rest` is the list of lines after the current one (for the
`next_line_is_list` lookahead). -/
def stepLine (s : BState) (line : Str) (rest : List Str) : BState :=
  if swL fenceTok line then
    let s1 :=
      if s.stack ≠ [] then
        let s0 :=
          if s.current_block ≠ [] then
            { s with blocks := s.blocks ++ [joinSp s.current_block], current_block := [] }
          else s
        { s0 with blocks := s0.blocks ++ [closeAllTags s0.stack], stack := [] }
      else s
    if s1.in_code_blocks = false then
      let s2 :=
        if s1.current_block ≠ [] then
          { s1 with blocks := s1.blocks ++ [wrapFlush s1.current_block], current_block := [] }
        else s1
      { s2 with in_code_blocks := true, language := pyStripL (line.drop 3) }
    else
      { s1 with blocks := s1.blocks ++ [codeBlockHtml s1.language s1.code_content],
                code_content := [], in_code_blocks := false }
  else if s.in_code_blocks then
    { s with code_content := s.code_content ++ [line] }
  else
    let next_line_is_list := match rest with
      | [] => false
      | nl :: _ => isListLine nl
    if pyStripL line = [] then
      if s.current_block ≠ [] then
        let s1 := { s with blocks := s.blocks ++ [wrapFlush s.current_block], current_block := [] }
        if s1.stack ≠ [] ∧ next_line_is_list = false then
          { s1 with blocks := s1.blocks ++ [closeAllTags s1.stack], stack := [] }
        else s1
      else s
    else
      let pr := parse_line s.stack line
      let s1 := { s with stack := pr.1 }
      if pr.2 ≠ [] then
        let s2 :=
          if (swL (("<ol").data) pr.2 || swL (("<ul").data) pr.2) ∧ s1.current_block ≠ [] then
            { s1 with blocks := s1.blocks ++ [wrapFlush s1.current_block], current_block := [] }
          else s1
        { s2 with current_block := s2.current_block ++ [pr.2] }
      else s1

/-- The whole line loop. -/
def runLines (s : BState) : List Str → BState
  | [] => s
  | line :: rest => runLines (stepLine s line rest) rest

/-- End-of-input handling of `parse_blocks`: flush a pending paragraph
buffer, then force-close any remaining list frames. -/
def finishBlocks (s : BState) : BState :=
  let s1 :=
    if s.current_block ≠ [] then
      { s with blocks := s.blocks ++ [wrapFlush s.current_block], current_block := [] }
    else s
  if s1.stack ≠ [] then
    { s1 with blocks := s1.blocks ++ [closeAllTags s1.stack], stack := [] }
  else s1

/-! ### The front-matter extractor (`MarkdownParser.parse_metadata`), the
anchored regex `^---\s*\n(.*?)\n---\s*\n` with `re.DOTALL` -/

/-- The `\s*\n` tail of either delimiter, greedy with backtracking: consumes
the leading whitespace run up to and including its last newline, failing when
that run contains no newline. -/
def matchWsNl (cs : Str) : Option Str :=
  let w := cs.takeWhile pyIsSpace
  if w.contains '\n' then
    some ((w.reverse.takeWhile (fun c => c ≠ '\n')).reverse ++ cs.dropWhile pyIsSpace)
  else none

/-- Lazy search for the closing `\n---\s*\n` of the metadata block: the
`(.*?)` group (any characters, `re.DOTALL`) grows one character at a time;
at each newline followed by `---` whose `\s*\n` tail matches, the match
completes.  Returns (group 1, text after the closing delimiter). -/
def findCloseFM (gacc : Str) : Str → Option (Str × Str)
  | [] => none
  | c :: rest =>
    if c = '\n' ∧ swL (("---").data) rest then
      match matchWsNl (rest.drop 3) with
      | some rem => some (gacc.reverse, rem)
      | none => findCloseFM (c :: gacc) rest
    else findCloseFM (c :: gacc) rest

/-- Remainders of the opening `---\s*\n`: one candidate per newline of the
leading whitespace run (each consuming through that newline), in text order;
the regex engine prefers the rightmost (greedy `\s*`). -/
def openRemsAux : Str → List Str
  | [] => []
  | c :: rest =>
    if pyIsSpace c then (if c = '\n' then [rest] else []) ++ openRemsAux rest
    else []

/-- Try candidates in order, returning the first success. -/
def firstSomeFM (f : Str → Option (Str × Str)) : List Str → Option (Str × Str)
  | [] => none
  | x :: xs =>
    match f x with
    | some r => some r
    | none => firstSomeFM f xs

/-- `self.patterns['metadata'].match(text)`: some (group 1, text after the
match) on success. -/
def metaMatch (text : Str) : Option (Str × Str) :=
  if swL (("---").data) text then
    firstSomeFM (findCloseFM []) ((openRemsAux (text.drop 3)).reverse)
  else none

/-- Python-dict update used for `metadata[key] = value`: overwrite in place if
the key exists, else append (insertion order preserved). -/
def dictInsert : List (Str × Str) → Str → Str → List (Str × Str)
  | [], k, v => [(k, v)]
  | (k', v') :: rest, k, v =>
    if k' = k then (k', v) :: rest else (k', v') :: dictInsert rest k v

/-- Python `dict.get`. -/
def dictGet : List (Str × Str) → Str → Option Str
  | [], _ => none
  | (k, v) :: rest, key => if k = key then some v else dictGet rest key

/-- Strip one matching pair of surrounding double or single quotes from a
metadata value (`value[1:-1]`). -/
def stripQuotes (v : Str) : Str :=
  if swL ['"'] v && swL ['"'] v.reverse then (v.drop 1).dropLast
  else if swL ['\''] v && swL ['\''] v.reverse then (v.drop 1).dropLast
  else v

/-- One line of the metadata block: strip, skip if it has no colon, else
split at the first colon, strip key and value, strip quotes, store. -/
def procLine (d : List (Str × Str)) (line : Str) : List (Str × Str) :=
  let l := pyStripL line
  if l.contains ':' then
    dictInsert d (pyStripL (l.takeWhile (fun c => c ≠ ':')))
      (stripQuotes (pyStripL ((l.dropWhile (fun c => c ≠ ':')).drop 1)))
  else d

/-- `MarkdownParser.parse_metadata`: the metadata mapping and the remaining
body. -/
def parse_metadata (text : Str) : List (Str × Str) × Str :=
  match metaMatch text with
  | some gb => ((splitLinesL (pyStripL gb.1)).foldl procLine [], gb.2)
  | none => ([], text)

/-! ### The document assembler (`parse_blocks` tail, byline and formatting)
and the conversion entry points -/

/-- Python string formatting of `metadata.get(...)` (an absent key formats as
`None`). -/
def fmtOpt : Option Str → Str
  | some v => v
  | none => ("None").data

/-- The metadata byline section (source lines 221-239); `now` stands for the
`datetime.now` timestamp string, a parameter of the model. -/
def renderByline (md : List (Str × Str)) (now : Str) : Option Str :=
  if md = [] then none
  else
    let datetimeval :=
      match dictGet md (("datetime").data) with
      | some v => if v = [] then now else v
      | none => now
    let author_part := ("<p class=\"text-xs text-slate-500\">Written by ").data
      ++ fmtOpt (dictGet md (("author").data)) ++ ("</p>").data
    let created_at := ("<p class=\"text-xs text-slate-500\">at ").data
      ++ datetimeval ++ ("</p>").data
    let updated_at :=
      match dictGet md (("updatetime").data) with
      | some v =>
        if v = [] then none
        else some (("<p class=\"text-xs text-slate-500\">edited at ").data ++ v ++ ("</p>").data)
      | none => none
    let section_datetime := ("<section class=\"flex flex-row gap-x-4\">").data
      ++ (match updated_at with
          | some u => created_at ++ '\n' :: u
          | none => created_at)
      ++ ("</section>").data
    some (("<section class=\"flex flex-row justify-between mb-5\">").data
      ++ author_part ++ '\n' :: section_datetime ++ ("</section>").data)

/-- Per-block indentation formatting (source lines 242-252). -/
def formatBlock (b : Str) : Str :=
  joinNl ((splitLinesL b).map (fun l =>
    if swL (("</ol>").data) l || swL (("</ul>").data) l then (' ' :: ' ' :: l)
    else if swL (("<li").data) l || swL (("</li>").data) l then (' ' :: ' ' :: ' ' :: ' ' :: l)
    else (' ' :: ' ' :: l)))

/-- The block-machine run of a conversion: metadata stripped, lines fed to
the segmenter, end-of-input handling applied. -/
def blockState (text : Str) : BState :=
  finishBlocks (runLines initState (splitLinesL (parse_metadata text).2))

/-- `MarkdownParser.parse_blocks`: metadata and the assembled HTML body. -/
def parse_blocks (now text : Str) : List (Str × Str) × Str :=
  let md := (parse_metadata text).1
  let s := blockState text
  let header := match renderByline md now with
    | some b => [b]
    | none => []
  (md, joinNl (header ++ s.blocks.map formatBlock))

/-- `MarkdownParser.apply_template` (error value: the message printed through
the exception chain). -/
def invalidTemplateMsg : Str :=
  ("Error applying template: Template must contain \x7b\x7bcontent\x7d\x7d mark in the body").data

/-- The literal `{{content}}` placeholder. -/
def contentTok : Str := ("\x7b\x7bcontent\x7d\x7d").data

/-- The literal `{{title}}` placeholder. -/
def titleTok : Str := ("\x7b\x7btitle\x7d\x7d").data

/-- `MarkdownParser.apply_template`: substitute `{{title}}`, require the
literal `{{content}}`, substitute every metadata key, then `{{content}}`. -/
def apply_template (tmpl title content : Str) (md : List (Str × Str)) : Except Str Str :=
  let t1 := pyReplaceL tmpl titleTok title
  if containsSubL contentTok t1 then
    let t2 := md.foldl
      (fun acc kv => pyReplaceL acc (("\x7b\x7b").data ++ kv.1 ++ ("\x7d\x7d").data) kv.2) t1
    Except.ok (pyReplaceL t2 contentTok content)
  else Except.error invalidTemplateMsg

/-- `MarkdownParser.create_default_html` (a static method of two
parameters). -/
def create_default_html (title content : Str) : Str :=
  ("<!DOCTYPE html>\n<html lang=\"en\">\n<head>\n    <meta charset=\"UTF-8\">\n    <meta name=\"viewport\" content=\"width=device-width, initial-scale=1.0\">\n    <title>").data
    ++ title
    ++ ("</title>\n    <link rel=\"stylesheet\" href=\"./styles/style.css\" />\n</head>\n<body>\n    ").data
    ++ content ++ ("\n</body>\n</html>").data

/-- The parameter names `create_default_html` accepts. -/
def create_default_html_params : List String := ["title", "content"]

/-- The keyword arguments `convert_file` passes to `create_default_html` when
no template path is supplied (source lines 270-274). -/
def default_call_kwargs : List String := ["title", "content", "metadata"]

/-- A Python keyword-argument call binds iff every supplied keyword is an
accepted parameter name; otherwise it raises `TypeError`. -/
def kwargsAccepted (params kwargs : List String) : Bool :=
  kwargs.all (fun k => params.contains k)

/-- `MarkdownParser.convert_file` after a successful read of the input file:
`text` is the file content, `stem` the input path's stem, `template` the
optional template file content, `now` the current-time string.  Returns the
boolean result together with the file content written to the output path
(`none` when the top-level handler caught an exception and nothing was
written). -/
def convert_file (text stem : Str) (template : Option Str) (now : Str) : Bool × Option Str :=
  let md := (parse_blocks now text).1
  let html_content := (parse_blocks now text).2
  let title := (dictGet md (("title").data)).getD stem
  match template with
  | some tmpl =>
    match apply_template tmpl title html_content md with
    | Except.ok h => (true, some h)
    | Except.error _ => (false, none)
  | none =>
    if kwargsAccepted create_default_html_params default_call_kwargs then
      (true, some (create_default_html title html_content))
    else (false, none)

/-! ### Definitions used to state the claims -/

/-- A document built per the front-matter contract: a triple-dash delimiter
line, the given metadata lines, a triple-dash terminator line, then the
body. -/
def fmText (ls : List Str) (body : Str) : Str :=
  ("---\n").data ++ joinNl ls ++ ("\n---\n").data ++ body

/-- The mapping described by the specification: split each line on its first
colon, trim whitespace from key and value, strip one matching pair of
surrounding quotes from the value, later lines overwriting earlier keys. -/
def specLineKV (d : List (Str × Str)) (l : Str) : List (Str × Str) :=
  dictInsert d (pyStripL (l.takeWhile (fun c => c ≠ ':')))
    (stripQuotes (pyStripL ((l.dropWhile (fun c => c ≠ ':')).drop 1)))

/-- No leading whitespace at the head of the text following the closing
delimiter (the regex's greedy `\s*` tail would otherwise absorb part of
it). -/
def bodyHeadOK : Str → Bool
  | [] => true
  | c :: _ => !pyIsSpace c

/-- Number of blank-line-delimited text groups (maximal runs of non-blank
lines); `pending` records whether a group is currently open. -/
def groupCountAux : Bool → List Str → Nat
  | pending, [] => if pending then 1 else 0
  | pending, l :: rest =>
    if pyStripL l = [] then (if pending then 1 else 0) + groupCountAux false rest
    else groupCountAux true rest

/-- Number of emitted paragraph blocks (blocks wrapped in the paragraph
tag). -/
def pcount (bs : List Str) : Nat := (bs.filter (fun b => swL (("<p").data) b)).length

/-- The paragraph blocks emitted for a document. -/
def pBlockCount (text : Str) : Nat := pcount (blockState text).blocks

/-- A line whose `parse_line` output (from an empty stack) does not begin
with `<h`, `<ol` or `<ul`, so that the prefix heuristic wraps its group in a
paragraph tag. -/
def linePrefOK (l : Str) : Bool := !badPref (parse_line [] l).2

/-- Invariant of the paragraph buffer during a no-list no-fence run: empty,
or headed by a non-empty fragment that the prefix heuristic will wrap. -/
def cbOK : List Str → Bool
  | [] => true
  | a :: _ => !badPref a && !a.isEmpty

/-! ## Theorems -/

set_option maxRecDepth 100000

/-- The keyword arguments passed by `convert_file`'s default branch are not
all accepted by `create_default_html`: the call raises `TypeError`. -/
theorem kwargs_reject :
    kwargsAccepted create_default_html_params default_call_kwargs = false := by decide

/-- C1: For every input file that is read successfully, calling
`convert_file` with no template path is claimed to wrap title and content in
the default skeleton, write the output and return `True`.  The code instead
passes the unexpected keyword argument `metadata` to the two-parameter static
method `create_default_html`, so the call raises `TypeError`, the top-level
handler catches it, nothing is written, and `False` is returned — for every
input. -/
theorem C1_convert_file_default_always_fails (text stem now : Str) :
    convert_file text stem none now = (false, none) := by
  unfold convert_file
  simp [kwargs_reject]

/-- C3 (counterexample): the claim says a fence delimiter preceded by leading
whitespace toggles the fence state; on the line `"  ```"` (whose trimmed
content starts with three backticks) the segmenter leaves the fence state
off, because the code tests `line.startswith('```')` without trimming. -/
theorem C3_cex_indented_fence_does_not_toggle :
    swL fenceTok (pyStripL (("  ```").data)) = true ∧
      (stepLine initState (("  ```").data) []).in_code_blocks = false := by
  constructor
  · decide
  · decide

/-- C3 (amended): the block segmenter toggles its fence state exactly when
the line itself starts with three backticks (no trimming); a fence delimiter
preceded by leading whitespace does not toggle the state. -/
theorem C3_fence_toggle_untrimmed (s : BState) (line : Str) (rest : List Str) :
    (stepLine s line rest).in_code_blocks =
      (if swL fenceTok line then !s.in_code_blocks else s.in_code_blocks) := by
  unfold stepLine
  by_cases hf : swL fenceTok line <;>
    simp only [hf, if_true, if_false] <;>
    (repeat' split) <;>
    simp_all

/-- Inside a fence, a non-fence line is appended verbatim to the code buffer
and nothing else changes. -/
theorem stepLine_in_code (s : BState) (l : Str) (rest : List Str)
    (hic : s.in_code_blocks = true) (hf : swL fenceTok l = false) :
    stepLine s l rest = { s with code_content := s.code_content ++ [l] } := by
  unfold stepLine
  simp [hf, hic]

/-- C5: an opening fence with no matching closing fence consumes every
remaining line into the code buffer verbatim (no error is possible: the model
is a total function), the block list never grows, and end-of-input discards
the buffered content: the final block output is the same as if the buffer
were empty, so no code block for that fence appears in the output. -/
theorem C5_unterminated_fence_drops_buffer :
    (∀ (s : BState) (ls : List Str), s.in_code_blocks = true →
        (∀ l ∈ ls, swL fenceTok l = false) →
        runLines s ls = { s with code_content := s.code_content ++ ls }) ∧
      (∀ t : BState,
        (finishBlocks t).blocks = (finishBlocks { t with code_content := [] }).blocks) := by
  constructor
  · intro s ls
    induction ls generalizing s with
    | nil => intro _ _; simp [runLines]
    | cons l rest ih =>
      intro hic hall
      have h1 : stepLine s l rest = { s with code_content := s.code_content ++ [l] } :=
        stepLine_in_code s l rest hic (hall l (List.mem_cons_self l rest))
      have h2 := ih { s with code_content := s.code_content ++ [l] } hic
        (fun x hx => hall x (List.mem_cons_of_mem l hx))
      simp only [runLines, h1, h2, List.append_assoc, List.singleton_append]
  · intro t
    unfold finishBlocks
    by_cases hcb : t.current_block ≠ [] <;> by_cases hst : t.stack ≠ [] <;> simp [hcb, hst]

/-- C5 witness: a concrete unterminated fence. -/
theorem C5_unterminated_fence_drops_buffer_witness :
    runLines { initState with in_code_blocks := true } [("x").data, ("y").data] =
      { initState with
          in_code_blocks := true
          code_content := [("x").data, ("y").data] } :=
  C5_unterminated_fence_drops_buffer.1
    { initState with in_code_blocks := true }
    [("x").data, ("y").data] (by decide) (by decide)

/-- C7: the list stack is empty at the start of a conversion (a fresh
parser), empty again at its end, and end-of-input force-closes any frames
still open, appending their closing tags as the final block. -/
theorem C7_stack_empty_start_end :
    initState.stack = [] ∧
      (∀ text : Str, (blockState text).stack = []) ∧
      (∀ s : BState, (finishBlocks s).stack = []) ∧
      (∀ s : BState, s.stack ≠ [] →
        (finishBlocks s).blocks = s.blocks ++
          (if s.current_block ≠ [] then [wrapFlush s.current_block] else []) ++
          [closeAllTags s.stack]) := by
  have hfin : ∀ s : BState, (finishBlocks s).stack = [] := by
    intro s
    unfold finishBlocks
    by_cases hcb : s.current_block = [] <;> by_cases hst : s.stack = [] <;> simp [hcb, hst]
  refine ⟨rfl, ?_, hfin, ?_⟩
  · intro text
    exact hfin _
  · intro s hst
    unfold finishBlocks
    by_cases hcb : s.current_block ≠ [] <;> simp [hcb, hst]

/-- C7 witness: a state with an open frame at end-of-input gets its closing
tag appended. -/
theorem C7_stack_empty_start_end_witness :
    (finishBlocks { initState with stack := [(0, false)] }).blocks =
      { initState with stack := [(0, false)] }.blocks ++
        (if { initState with stack := [(0, false)] }.current_block ≠ [] then
          [wrapFlush { initState with stack := [(0, false)] }.current_block] else []) ++
        [closeAllTags { initState with stack := [(0, false)] }.stack] :=
  C7_stack_empty_start_end.2.2.2 { initState with stack := [(0, false)] } (by decide)

/-- A line matching the unordered-list pattern cannot match the header
pattern (its first character is whitespace, `-` or `*`, never `#`). -/
theorem matchUL_not_header {line : Str} {p : Nat × Str} (h : matchUL line = some p) :
    matchHeader line = none := by
  unfold matchUL at h
  unfold matchHeader
  cases line with
  | nil => simp at h
  | cons c rest =>
    by_cases hc : c = '#'
    · subst hc
      cases rest with
      | nil => simp [pyIsSpace, List.dropWhile_cons] at h
      | cons c2 r2 => simp [pyIsSpace, List.dropWhile_cons] at h
    · simp [hc, List.takeWhile_cons]

/-- A line matching the ordered-list pattern cannot match the header pattern
(its first character is whitespace or a digit, never `#`). -/
theorem matchOL_not_header {line : Str} {p : Nat × Str} (h : matchOL line = some p) :
    matchHeader line = none := by
  unfold matchOL at h
  unfold matchHeader
  cases line with
  | nil => simp at h
  | cons c rest =>
    by_cases hc : c = '#'
    · subst hc
      simp [pyIsSpace, List.dropWhile_cons, List.takeWhile_cons, Char.isDigit] at h
    · simp [hc, List.takeWhile_cons]

/-- C8: when a list line's indent equals the top frame's indent (deeper
frames already popped), no opening or closing list tag is emitted, the
existing frame — including its ordered flag `b` — is kept regardless of the
current line's marker type, and the emitted HTML is exactly one list-item
element wrapping the inline-formatted item text. -/
theorem C8_equal_indent_reuses_frame (st : List (Nat × Bool)) (d : Nat) (b : Bool)
    (line content : Str)
    (h : matchUL line = some (d, content) ∧ matchOL line = none ∨
         matchOL line = some (d, content) ∧ matchUL line = none) :
    parse_line ((d, b) :: st) line =
      ((d, b) :: st, ("<li>").data ++ parse_inline content ++ ("</li>").data) := by
  have hli : ∀ flag : Bool, listPart ((d, b) :: st) d content flag =
      ((d, b) :: st, ("<li>").data ++ parse_inline content ++ ("</li>").data) := by
    intro flag
    unfold listPart popDeeper
    simp [joinNl, joinSepL]
  rcases h with ⟨hu, ho⟩ | ⟨ho, hu⟩
  · have hh := matchUL_not_header hu
    unfold parse_line
    rw [hh, hu, ho]
    exact hli false
  · have hh := matchOL_not_header ho
    unfold parse_line
    rw [hh, hu, ho]
    exact hli true

/-- C8 witness: an unordered item at the indent of an open ordered frame
keeps the ordered frame and emits only the list item. -/
theorem C8_equal_indent_reuses_frame_witness :
    parse_line [(0, true)] (("- x").data) =
      ([(0, true)], ("<li>").data ++ parse_inline (("x").data) ++ ("</li>").data) :=
  C8_equal_indent_reuses_frame [] 0 true (("- x").data) (("x").data)
    (Or.inl (by constructor <;> decide))

/-- A dict update makes the key map to the stored value. -/
theorem dictGet_dictInsert (d : List (Str × Str)) (k v : Str) :
    dictGet (dictInsert d k v) k = some v := by
  induction d with
  | nil => simp [dictInsert, dictGet]
  | cons kv rest ih =>
    obtain ⟨k', v'⟩ := kv
    by_cases hk : k' = k <;> simp [dictInsert, dictGet, hk, ih]

/-- A lone quote character strips to the empty string (`value[1:-1]` of a
one-character string). -/
theorem stripQuotes_lone_quote {v : Str} (h : v = ['"'] ∨ v = ['\'']) :
    stripQuotes v = [] := by
  rcases h with h | h <;> subst h <;> decide

/-- C10: a front-matter line whose value, after trimming, is exactly one
quote character (a lone `"` or a lone `'`) is stored with the empty string as
its value: the single character passes both the starts-with and the
ends-with quote test and `value[1:-1]` strips it away entirely. -/
theorem C10_lone_quote_value_empty (d : List (Str × Str)) (line : Str)
    (hc : (pyStripL line).contains ':' = true)
    (hv : pyStripL (((pyStripL line).dropWhile (fun c => c ≠ ':')).drop 1) = ['"'] ∨
          pyStripL (((pyStripL line).dropWhile (fun c => c ≠ ':')).drop 1) = ['\'']) :
    dictGet (procLine d line) (pyStripL ((pyStripL line).takeWhile (fun c => c ≠ ':'))) =
      some [] := by
  unfold procLine
  rw [if_pos hc, stripQuotes_lone_quote hv]
  exact dictGet_dictInsert d _ []

/-- C10 witness: the line `a: "` maps `a` to the empty string. -/
theorem C10_lone_quote_value_empty_witness :
    dictGet (procLine [] (("a: \"").data))
        (pyStripL (((pyStripL (("a: \"").data)).takeWhile (fun c => c ≠ ':')))) =
      some [] :=
  C10_lone_quote_value_empty [] (("a: \"").data) (by decide) (Or.inl (by decide))

/-- C2 (counterexample): the claim includes header lines among the non-list,
non-blank lines that pop all open list frames; but a header line is handled
by the earlier header branch of `parse_line`, which leaves the stack
untouched and emits no closing tag. -/
theorem C2_cex_header_keeps_stack :
    pyStripL (("# T").data) ≠ [] ∧
      matchUL (("# T").data) = none ∧ matchOL (("# T").data) = none ∧
      (parse_line [(0, false)] (("# T").data)).1 = [(0, false)] := by
  refine ⟨by decide, by decide, by decide, by decide⟩

/-- C2 (amended): for every non-blank line that is neither a list item nor a
header, processed while the list frame stack is non-empty, all remaining
frames are popped with their matching closing tags emitted (top first)
before the line's own inline-formatted text. -/
theorem C2_nonlist_line_closes_all (st : List (Nat × Bool)) (line : Str)
    (hst : st ≠ [])
    (hnl : line.contains '\n' = false)
    (hnb : pyStripL line ≠ [])
    (hh : matchHeader line = none)
    (hu : matchUL line = none)
    (ho : matchOL line = none) :
    parse_line st line = ([], joinNl (st.map closeTagOf) ++ '\n' :: parse_inline line) := by
  unfold parse_line
  rw [hh, hu, ho]
  simp [hst]

/-- C2 witness: a plain text line with one open unordered frame. -/
theorem C2_nonlist_line_closes_all_witness :
    parse_line [(2, true)] (("hello").data) =
      ([], joinNl ([(2, true)].map closeTagOf) ++ '\n' :: parse_inline (("hello").data)) :=
  C2_nonlist_line_closes_all [(2, true)] (("hello").data)
    (by decide) (by decide) (by decide) (by decide) (by decide) (by decide)

/-- C6 (counterexample): a template lacking the literal content placeholder
for which `convert_file` nevertheless succeeds and writes the output: the
`{{title}}` substitution runs before the placeholder check, so a front-matter
title equal to `{{content}}` smuggles the placeholder in. -/
theorem C6_cex_title_smuggles_placeholder :
    containsSubL contentTok (("A\x7b\x7btitle\x7d\x7dB").data) = false ∧
      (convert_file (("---\ntitle: \x7b\x7bcontent\x7d\x7d\n---\n").data) (("in").data)
          (some (("A\x7b\x7btitle\x7d\x7dB").data)) (("T").data)).1 = true := by
  refine ⟨by decide, by decide⟩

/-- C6 (amended): whenever the template text still lacks the literal
`{{content}}` placeholder after the title has been substituted for
`{{title}}` (in particular, whenever the template lacks the placeholder and
the substituted title does not introduce it), `apply_template` fails with the
`InvalidTemplate`-class error message, `convert_file` returns `False`, and
nothing is written to the output path. -/
theorem C6_missing_placeholder_fails (text stem tmpl now : Str)
    (h : containsSubL contentTok
        (pyReplaceL tmpl titleTok
          ((dictGet (parse_metadata text).1 (("title").data)).getD stem)) = false) :
    convert_file text stem (some tmpl) now = (false, none) ∧
      (∀ content md, apply_template tmpl
          ((dictGet (parse_metadata text).1 (("title").data)).getD stem) content md =
        Except.error invalidTemplateMsg) := by
  have happ : ∀ content md, apply_template tmpl
      ((dictGet (parse_metadata text).1 (("title").data)).getD stem) content md =
      Except.error invalidTemplateMsg := by
    intro content md
    unfold apply_template
    rw [if_neg]
    simp [h]
  refine ⟨?_, happ⟩
  unfold convert_file
  dsimp only
  have hmd : (parse_blocks now text).1 = (parse_metadata text).1 := rfl
  rw [hmd, happ]

/-- C6 witness: a template with no placeholders at all. -/
theorem C6_missing_placeholder_fails_witness :
    convert_file (("hi").data) (("f").data) (some (("X").data)) (("T").data) = (false, none) ∧
      (∀ content md, apply_template (("X").data)
          ((dictGet (parse_metadata (("hi").data)).1 (("title").data)).getD (("f").data))
          content md = Except.error invalidTemplateMsg) :=
  C6_missing_placeholder_fails (("hi").data) (("f").data) (("X").data) (("T").data) (by decide)

/-- A substitution pass never turns non-empty text into empty text. -/
theorem subLazyFuel_ne_nil {o1 : Char} {orest close : Str} {minLen : Nat} {pre post : Str}
    (hpre : pre ≠ []) :
    ∀ (fuel : Nat) (cs : Str), cs ≠ [] → subLazyFuel o1 orest close minLen pre post fuel cs ≠ [] := by
  intro fuel cs hcs
  cases fuel with
  | zero => simpa [subLazyFuel] using hcs
  | succ n =>
    cases cs with
    | nil => exact absurd rfl hcs
    | cons c rest =>
      unfold subLazyFuel
      by_cases ho : swL (o1 :: orest) (c :: rest)
      · simp only [ho, if_true]
        cases hfc : findLazyClose close minLen (rest.drop orest.length) with
        | none => simp
        | some gr => simp [hpre]
      · simp [ho]

/-- A two-group substitution pass never turns non-empty text into empty
text. -/
theorem subPairFuel_ne_nil {o1 : Char} {orest a b e : Str} (ha : a ≠ []) :
    ∀ (fuel : Nat) (cs : Str), cs ≠ [] → subPairFuel o1 orest a b e fuel cs ≠ [] := by
  intro fuel cs hcs
  cases fuel with
  | zero => simpa [subPairFuel] using hcs
  | succ n =>
    cases cs with
    | nil => exact absurd rfl hcs
    | cons c rest =>
      unfold subPairFuel
      by_cases ho : swL (o1 :: orest) (c :: rest)
      · simp only [ho, if_true]
        cases hfc : findLinkBody [] (rest.drop orest.length) with
        | none => simp
        | some g => simp [ha]
      · simp [ho]

/-- The inline formatter maps non-empty lines to non-empty fragments. -/
theorem parse_inline_ne_nil {text : Str} (h : text ≠ []) : parse_inline text ≠ [] := by
  unfold parse_inline
  apply subLazyFuel_ne_nil (by decide)
  apply subPairFuel_ne_nil (by decide)
  apply subPairFuel_ne_nil (by decide)
  apply subLazyFuel_ne_nil (by decide)
  apply subLazyFuel_ne_nil (by decide)
  exact h

/-- With an empty stack, a non-list line leaves the stack empty. -/
theorem parse_line_nil_stack (l : Str) (hu : matchUL l = none) (ho : matchOL l = none) :
    (parse_line [] l).1 = [] := by
  unfold parse_line
  cases hh : matchHeader l with
  | some lg => rfl
  | none => rw [hu, ho]; simp

/-- With an empty stack, a non-blank non-list line produces a non-empty
fragment. -/
theorem parse_line_nil_ne (l : Str) (hnb : pyStripL l ≠ [])
    (hu : matchUL l = none) (ho : matchOL l = none) : (parse_line [] l).2 ≠ [] := by
  have hl : l ≠ [] := by
    intro he
    subst he
    exact hnb (by decide)
  unfold parse_line
  cases hh : matchHeader l with
  | some lg =>
    simp only [headerHtml]
    simp
  | none =>
    rw [hu, ho]
    simp [hnb]
    exact parse_inline_ne_nil hl

/-- A prefix test without spaces that succeeds across the space-join
separator already succeeds on the first fragment. -/
theorem swL_of_append_space : ∀ (pat a : Str) (r : Str), ' ' ∉ pat →
    swL pat (a ++ ' ' :: r) = true → swL pat a = true := by
  intro pat
  induction pat with
  | nil => intro a r _ _; rfl
  | cons p ps ih =>
    intro a r hsp h
    cases a with
    | nil =>
      exfalso
      simp only [List.nil_append, swL, Bool.and_eq_true, decide_eq_true_eq] at h
      exact hsp (h.1 ▸ List.mem_cons_self p ps)
    | cons c a' =>
      simp only [List.cons_append, swL, Bool.and_eq_true] at h ⊢
      exact ⟨h.1, ih a' r (fun hm => hsp (List.mem_cons_of_mem p hm)) h.2⟩

/-- The prefix heuristic on a space-joined buffer is decided by the first
fragment. -/
theorem badPref_joinSp {a : Str} {t : List Str} (h : badPref a = false) :
    badPref (joinSp (a :: t)) = false := by
  cases t with
  | nil => simpa [joinSp, joinSepL] using h
  | cons b t' =>
    unfold badPref at h ⊢
    simp only [Bool.or_eq_false_iff] at h ⊢
    have hj : joinSp (a :: b :: t') = a ++ ' ' :: joinSp (b :: t') := by
      simp [joinSp, joinSepL]
    rw [hj]
    refine ⟨⟨?_, ?_⟩, ?_⟩ <;>
    · cases hs : swL _ (a ++ ' ' :: joinSp (b :: t')) <;> try rfl
      exfalso
      have := swL_of_append_space _ a (joinSp (b :: t')) (by decide) hs
      simp_all

/-- Under the buffer invariant, a flushed buffer is wrapped in the paragraph
tag. -/
theorem wrapFlush_sw_p {cb : List Str} (hcb : cbOK cb = true) (hne : cb ≠ []) :
    swL (("<p").data) (wrapFlush cb) = true := by
  cases cb with
  | nil => exact absurd rfl hne
  | cons a t =>
    unfold cbOK at hcb
    simp only [Bool.and_eq_true, Bool.not_eq_true'] at hcb
    unfold wrapFlush
    rw [if_neg (by simp [badPref_joinSp hcb.1])]
    rfl

/-- Appending one block adds one to the paragraph count iff the block starts
with the paragraph tag. -/
theorem pcount_append_one (bs : List Str) (b : Str) :
    pcount (bs ++ [b]) = pcount bs + (if swL (("<p").data) b then 1 else 0) := by
  simp only [pcount, List.filter_append]
  by_cases h : swL (("<p").data) b <;> simp [h, List.filter]

/-- A blank line with a pending paragraph buffer and no open list frames
flushes the buffer as one block. -/
theorem stepLine_blank_flush (s : BState) (l : Str) (rest : List Str)
    (hf : swL fenceTok l = false) (hic : s.in_code_blocks = false)
    (hb : pyStripL l = []) (hcb : s.current_block ≠ []) (hst : s.stack = []) :
    stepLine s l rest =
      { s with blocks := s.blocks ++ [wrapFlush s.current_block], current_block := [] } := by
  unfold stepLine
  simp [hf, hic, hb, hcb, hst]

/-- A blank line with an empty paragraph buffer is a no-op. -/
theorem stepLine_blank_skip (s : BState) (l : Str) (rest : List Str)
    (hf : swL fenceTok l = false) (hic : s.in_code_blocks = false)
    (hb : pyStripL l = []) (hcb : s.current_block = []) :
    stepLine s l rest = s := by
  unfold stepLine
  simp [hf, hic, hb, hcb]

/-- A non-blank non-list line with empty stack appends its fragment to the
paragraph buffer. -/
theorem stepLine_text (s : BState) (l : Str) (rest : List Str)
    (hf : swL fenceTok l = false) (hic : s.in_code_blocks = false)
    (hb : pyStripL l ≠ []) (hu : matchUL l = none) (ho : matchOL l = none)
    (hpref : linePrefOK l = true) (hst : s.stack = []) :
    stepLine s l rest =
      { s with
          stack := []
          current_block := s.current_block ++ [(parse_line [] l).2] } := by
  unfold stepLine
  rw [hst]
  have hne := parse_line_nil_ne l hb hu ho
  have hstk := parse_line_nil_stack l hu ho
  have hbp : badPref (parse_line [] l).2 = false := by
    have := hpref
    unfold linePrefOK at this
    simpa using this
  have hol : swL (("<ol").data) (parse_line [] l).2 = false := by
    unfold badPref at hbp
    simp only [Bool.or_eq_false_iff] at hbp
    exact hbp.1.2
  have hul : swL (("<ul").data) (parse_line [] l).2 = false := by
    unfold badPref at hbp
    simp only [Bool.or_eq_false_iff] at hbp
    exact hbp.2
  simp [hf, hic, hb, hne, hstk, hol, hul]

/-- End-of-input: the paragraph count grows by one exactly when a buffer is
pending (given the buffer invariant and no open frames). -/
theorem finishBlocks_pcount (s : BState) (hst : s.stack = [])
    (hcb : cbOK s.current_block = true) :
    pcount (finishBlocks s).blocks =
      pcount s.blocks + (if s.current_block = [] then 0 else 1) := by
  unfold finishBlocks
  by_cases h : s.current_block = []
  · simp [h, hst]
  · have hw := wrapFlush_sw_p hcb h
    simp [h, hst, pcount_append_one, hw]

/-- Unfolding equation of the group counter on a cons cell. -/
theorem groupCountAux_cons (pending : Bool) (l : Str) (rest : List Str) :
    groupCountAux pending (l :: rest) =
      if pyStripL l = [] then (if pending then 1 else 0) + groupCountAux false rest
      else groupCountAux true rest := rfl

/-- Main induction for C9: over a run of fence-free, list-free lines whose
fragments the prefix heuristic wraps, the paragraph-block count grows by the
number of blank-line-delimited groups. -/
theorem runLines_para (ls : List Str) : ∀ s : BState,
    (∀ l ∈ ls, swL fenceTok l = false ∧ matchUL l = none ∧ matchOL l = none ∧
      linePrefOK l = true) →
    s.stack = [] → s.in_code_blocks = false → cbOK s.current_block = true →
    pcount (finishBlocks (runLines s ls)).blocks =
      pcount s.blocks + groupCountAux (!s.current_block.isEmpty) ls := by
  induction ls with
  | nil =>
    intro s _ hst hic hcb
    rw [show runLines s [] = s from rfl]
    rw [finishBlocks_pcount s hst hcb]
    unfold groupCountAux
    cases h : s.current_block <;> simp [h]
  | cons l rest ih =>
    intro s hall hst hic hcb
    obtain ⟨hf, hu, ho, hpref⟩ := hall l (List.mem_cons_self l rest)
    have hallr : ∀ x ∈ rest, swL fenceTok x = false ∧ matchUL x = none ∧ matchOL x = none ∧
        linePrefOK x = true := fun x hx => hall x (List.mem_cons_of_mem l hx)
    rw [show runLines s (l :: rest) = runLines (stepLine s l rest) rest from rfl]
    by_cases hb : pyStripL l = []
    · by_cases hcb0 : s.current_block = []
      · rw [stepLine_blank_skip s l rest hf hic hb hcb0]
        rw [ih s hallr hst hic hcb]
        rw [groupCountAux_cons]
        simp [hb, hcb0]
      · rw [stepLine_blank_flush s l rest hf hic hb hcb0 hst]
        rw [ih _ hallr (by simp [hst]) (by simp [hic]) (by simp [cbOK])]
        simp only [pcount_append_one, wrapFlush_sw_p hcb hcb0, if_true]
        rw [groupCountAux_cons]
        simp [hb, hcb0]
        omega
    · rw [stepLine_text s l rest hf hic hb hu ho hpref hst]
      have hne := parse_line_nil_ne l hb hu ho
      have hbp : badPref (parse_line [] l).2 = false := by
        have := hpref
        unfold linePrefOK at this
        simpa using this
      have hcb' : cbOK (s.current_block ++ [(parse_line [] l).2]) = true := by
        cases hc : s.current_block with
        | nil => simp [cbOK, hbp, hne]
        | cons a t =>
          rw [hc] at hcb
          unfold cbOK at hcb ⊢
          simpa using hcb
      rw [ih _ hallr (by simp) (by simp [hic]) (by simpa using hcb')]
      rw [groupCountAux_cons]
      simp [hb]
      congr 1
      cases s.current_block <;> simp

/-- C9 (counterexample): the claim counts every blank-line-delimited text
group as a paragraph block for any input with no list items and no fence
lines; but a header line forms a text group whose block is a header, not a
paragraph (the prefix heuristic sees `<h` and skips the paragraph wrap), so
the input `# T` has one text group and zero paragraph blocks. -/
theorem C9_cex_header_group_not_paragraph :
    (∀ l ∈ splitLinesL (parse_metadata (("# T").data)).2,
        swL fenceTok l = false ∧ matchUL l = none ∧ matchOL l = none) ∧
      groupCountAux false (splitLinesL (parse_metadata (("# T").data)).2) = 1 ∧
      pBlockCount (("# T").data) = 0 := by
  refine ⟨by decide, by decide, by decide⟩

/-- C9 (amended): for every input whose body contains no list items, no
fence lines, and no line whose `parse_line` fragment begins with `<h`, `<ol`
or `<ul` (in particular no headers), the number of emitted paragraph blocks
equals the number of blank-line-delimited text groups in the body. -/
theorem C9_paragraph_count (text : Str)
    (h : ∀ l ∈ splitLinesL (parse_metadata text).2,
      swL fenceTok l = false ∧ matchUL l = none ∧ matchOL l = none ∧ linePrefOK l = true) :
    pBlockCount text = groupCountAux false (splitLinesL (parse_metadata text).2) := by
  unfold pBlockCount blockState
  have hmain := runLines_para (splitLinesL (parse_metadata text).2) initState h rfl rfl rfl
  simpa [pcount, initState] using hmain

/-- C9 witness: two plain paragraphs. -/
theorem C9_paragraph_count_witness :
    pBlockCount (("a\n\nb b\nc").data) =
      groupCountAux false (splitLinesL (parse_metadata (("a\n\nb b\nc").data)).2) :=
  C9_paragraph_count (("a\n\nb b\nc").data) (by decide)

/-- An all-whitespace prefix does not affect `strip`. -/
theorem pyStripL_front_ws {w : Str} (y : Str) (hw : ∀ a ∈ w, pyIsSpace a) :
    pyStripL (w ++ y) = pyStripL y := by
  unfold pyStripL lstripL
  rw [List.dropWhile_append_of_pos hw]

/-- Dropping trailing whitespace commutes with an all-kept prefix. -/
theorem rstripL_append_keep {b : Str} (a : Str) (hb : ∃ c ∈ b, pyIsSpace c = false) :
    rstripL (a ++ b) = a ++ rstripL b := by
  unfold rstripL
  rw [List.reverse_append, List.dropWhile_append]
  rw [if_neg]
  · rw [List.reverse_append, List.reverse_reverse]
  · obtain ⟨c, hc, hpc⟩ := hb
    intro hemp
    rw [List.isEmpty_eq_true, List.dropWhile_eq_nil_iff] at hemp
    exact absurd (hemp c (by simpa using hc)) (by simp [hpc])

/-- An all-whitespace suffix is removed by `rstrip`. -/
theorem rstripL_append_ws {sfx : Str} (u : Str) (hs : ∀ a ∈ sfx, pyIsSpace a) :
    rstripL (u ++ sfx) = rstripL u := by
  unfold rstripL
  rw [List.reverse_append, List.dropWhile_append_of_pos (by simpa using hs)]

/-- An all-whitespace suffix does not affect `strip`. -/
theorem pyStripL_ws_suffix {sfx : Str} (y : Str) (hs : ∀ a ∈ sfx, pyIsSpace a) :
    pyStripL (y ++ sfx) = pyStripL y := by
  unfold pyStripL lstripL
  by_cases hall : ∀ a ∈ y, pyIsSpace a
  · have h1 : List.dropWhile pyIsSpace (y ++ sfx) = [] := by
      rw [List.dropWhile_eq_nil_iff]
      intro a ha
      rcases List.mem_append.mp ha with h | h
      · exact hall a h
      · exact hs a h
    have h2 : List.dropWhile pyIsSpace y = [] := List.dropWhile_eq_nil_iff.mpr hall
    rw [h1, h2]
  · rw [List.dropWhile_append, if_neg]
    · exact rstripL_append_ws _ hs
    · intro hemp
      rw [List.isEmpty_eq_true, List.dropWhile_eq_nil_iff] at hemp
      exact hall hemp

/-- Every string is its rstrip followed by an all-whitespace suffix. -/
theorem rstripL_decomp (l : Str) :
    l = rstripL l ++ (l.reverse.takeWhile pyIsSpace).reverse ∧
      ∀ a ∈ (l.reverse.takeWhile pyIsSpace).reverse, pyIsSpace a := by
  constructor
  · unfold rstripL
    have h := List.takeWhile_append_dropWhile pyIsSpace l.reverse
    calc l = l.reverse.reverse := (List.reverse_reverse l).symm
    _ = (l.reverse.takeWhile pyIsSpace ++ l.reverse.dropWhile pyIsSpace).reverse := by rw [h]
    _ = _ := by rw [List.reverse_append]
  · intro a ha
    rw [List.mem_reverse] at ha
    exact List.mem_takeWhile_imp ha

/-- `procLine` only looks at the stripped line. -/
theorem procLine_congr {a b : Str} (d : List (Str × Str)) (h : pyStripL a = pyStripL b) :
    procLine d a = procLine d b := by
  unfold procLine
  rw [h]

/-- `procLine` ignores leading whitespace. -/
theorem procLine_lstrip (d : List (Str × Str)) (l : Str) :
    procLine d (lstripL l) = procLine d l := by
  refine procLine_congr d ?_
  have hd : l.takeWhile pyIsSpace ++ l.dropWhile pyIsSpace = l :=
    List.takeWhile_append_dropWhile pyIsSpace l
  conv_rhs => rw [← hd]
  rw [pyStripL_front_ws _ (fun a ha => List.mem_takeWhile_imp ha)]
  rfl

/-- `procLine` ignores trailing whitespace. -/
theorem procLine_rstrip (d : List (Str × Str)) (l : Str) :
    procLine d (rstripL l) = procLine d l := by
  refine procLine_congr d ?_
  obtain ⟨hdec, hws⟩ := rstripL_decomp l
  conv_rhs => rw [hdec]
  rw [pyStripL_ws_suffix _ hws]

/-- Unfolding equation of `splitLinesL` on a cons cell. -/
theorem splitLinesL_cons (c : Char) (rest : Str) :
    splitLinesL (c :: rest) =
      match splitLinesL rest with
      | h :: t => if c = '\n' then [] :: h :: t else (c :: h) :: t
      | [] => if c = '\n' then [[], []] else [[c]] := rfl

/-- Splitting never yields the empty list of lines. -/
theorem splitLinesL_ne_nil : ∀ (x : Str), splitLinesL x ≠ [] := by
  intro x
  cases x with
  | nil => simp [splitLinesL]
  | cons c rest =>
    rw [splitLinesL_cons]
    cases h : splitLinesL rest with
    | nil => by_cases hc : c = '\n' <;> simp [hc]
    | cons y t => by_cases hc : c = '\n' <;> simp [hc]

/-- Splitting a newline-free string yields that single line. -/
theorem splitLinesL_no_nl : ∀ {l : Str}, '\n' ∉ l → splitLinesL l = [l] := by
  intro l
  induction l with
  | nil => intro _; rfl
  | cons c rest ih =>
    intro h
    have hc : c ≠ '\n' := fun he => h (he ▸ List.mem_cons_self c rest)
    have hr := ih (fun hm => h (List.mem_cons_of_mem c hm))
    rw [splitLinesL_cons, hr]
    simp [hc]

/-- Splitting a string with a newline after a newline-free prefix. -/
theorem splitLinesL_append_nl : ∀ {a : Str} (b : Str), '\n' ∉ a →
    splitLinesL (a ++ '\n' :: b) = a :: splitLinesL b := by
  intro a
  induction a with
  | nil =>
    intro b _
    simp only [List.nil_append]
    rw [splitLinesL_cons]
    cases h : splitLinesL b with
    | nil => exact absurd h (splitLinesL_ne_nil b)
    | cons x t => simp
  | cons c a' ih =>
    intro b h
    have hc : c ≠ '\n' := fun he => h (he ▸ List.mem_cons_self c a')
    have hr := ih b (fun hm => h (List.mem_cons_of_mem c hm))
    show splitLinesL (c :: (a' ++ '\n' :: b)) = (c :: a') :: splitLinesL b
    rw [splitLinesL_cons, hr]
    simp [hc]

/-- `joinNl` on a cons cell. -/
theorem joinNl_cons (x : Str) (xs : List Str) :
    joinNl (x :: xs) = x ++ (if xs.isEmpty then [] else '\n' :: joinNl xs) := by
  cases xs with
  | nil => simp [joinNl, joinSepL]
  | cons y t => simp [joinNl, joinSepL]

/-- Unfolding equation of the close search on a cons cell. -/
theorem findCloseFM_cons (gacc : Str) (c : Char) (rest : Str) :
    findCloseFM gacc (c :: rest) =
      if c = '\n' ∧ swL (("---").data) rest = true then
        match matchWsNl (rest.drop 3) with
        | some rem => some (gacc.reverse, rem)
        | none => findCloseFM (c :: gacc) rest
      else findCloseFM (c :: gacc) rest := rfl

/-- The lazy close search consumes a newline-free prefix into the group. -/
theorem findCloseFM_skip : ∀ (a : Str) (gacc r : Str), '\n' ∉ a →
    findCloseFM gacc (a ++ r) = findCloseFM (a.reverse ++ gacc) r := by
  intro a
  induction a with
  | nil => intro gacc r _; rfl
  | cons c a' ih =>
    intro gacc r h
    have hc : c ≠ '\n' := fun he => h (he ▸ List.mem_cons_self c a')
    show findCloseFM gacc (c :: (a' ++ r)) = _
    rw [findCloseFM_cons, if_neg (by simp [hc])]
    rw [ih (c :: gacc) r (fun hm => h (List.mem_cons_of_mem c hm))]
    congr 1
    simp

/-- `\s*\n` fails when the leading whitespace run has no newline. -/
theorem matchWsNl_none {cs : Str} (h : '\n' ∉ cs.takeWhile pyIsSpace) :
    matchWsNl cs = none := by
  unfold matchWsNl
  rw [if_neg]
  intro hcon
  exact h (List.elem_iff.mp hcon)

/-- The leading whitespace run of `a ++ b` stays inside `a` when `a` has a
non-whitespace character. -/
theorem takeWhile_append_inside {p : Char → Bool} {a : Str} (b : Str) {c : Char}
    (hc : c ∈ a) (hpc : p c = false) :
    (a ++ b).takeWhile p = a.takeWhile p := by
  induction a with
  | nil => exact absurd hc (List.not_mem_nil c)
  | cons x a' ih =>
    show (x :: (a' ++ b)).takeWhile p = _
    rw [List.takeWhile_cons, List.takeWhile_cons]
    by_cases hx : p x
    · rcases List.mem_cons.mp hc with he | hm
      · exact absurd (he ▸ hx) (by simp [hpc])
      · rw [ih hm]
    · simp [hx]

/-- If `---` starts `L ++ r` and `L` contains a colon, `L` itself starts with
`---` and keeps the colon after it. -/
theorem swL3_decomp {L : Str} (r : Str) (h : swL (("---").data) (L ++ r) = true)
    (hc : ':' ∈ L) : ∃ L3, L = '-' :: '-' :: '-' :: L3 ∧ ':' ∈ L3 := by
  match L, hc with
  | [c1], hc =>
    have h1 : ':' = c1 := by simpa using hc
    subst h1
    simp [swL] at h
  | [c1, c2], hc =>
    simp only [List.cons_append, swL, Bool.and_eq_true, decide_eq_true_eq] at h
    obtain ⟨e1, e2, -⟩ := h
    subst e1
    subst e2
    simp at hc
  | c1 :: c2 :: c3 :: L3, hc =>
    simp only [List.cons_append, swL, Bool.and_eq_true, decide_eq_true_eq] at h
    obtain ⟨e1, e2, e3, -⟩ := h
    subst e1
    subst e2
    subst e3
    refine ⟨L3, rfl, ?_⟩
    simpa using hc

/-- A key-value line (colon inside, no newline) cannot complete the closing
delimiter: the close search walks past its leading newline. -/
theorem findCloseFM_line_step {L : Str} (gacc r : Str) (hcl : ':' ∈ L) (hnl : '\n' ∉ L) :
    findCloseFM gacc ('\n' :: (L ++ r)) = findCloseFM ('\n' :: gacc) (L ++ r) := by
  rw [findCloseFM_cons]
  by_cases hsw : swL (("---").data) (L ++ r) = true
  · rw [if_pos ⟨rfl, hsw⟩]
    obtain ⟨L3, hL, hc3⟩ := swL3_decomp r hsw hcl
    have hd3 : (L ++ r).drop 3 = L3 ++ r := by rw [hL]; rfl
    rw [hd3]
    have hnl3 : '\n' ∉ L3 := by
      intro hm
      exact hnl (hL ▸ by simp [hm])
    have hw : matchWsNl (L3 ++ r) = none := by
      refine matchWsNl_none ?_
      rw [takeWhile_append_inside r hc3 (by decide)]
      intro hm
      exact hnl3 ((List.takeWhile_sublist _).mem hm)
    rw [hw]
  · rw [if_neg (by simp [hsw])]

/-- The genuine closing delimiter `\n---\n` completes the close search when
the following body does not begin with whitespace. -/
theorem findCloseFM_term (gacc body : Str) (hb : bodyHeadOK body = true) :
    findCloseFM gacc ('\n' :: '-' :: '-' :: '-' :: '\n' :: body) =
      some (gacc.reverse, body) := by
  have hbw : body.takeWhile pyIsSpace = [] ∧ body.dropWhile pyIsSpace = body := by
    cases body with
    | nil => exact ⟨rfl, rfl⟩
    | cons c rest =>
      unfold bodyHeadOK at hb
      rw [Bool.not_eq_true'] at hb
      rw [List.takeWhile_cons, List.dropWhile_cons]
      simp [hb]
  rw [findCloseFM_cons]
  rw [if_pos ⟨rfl, by simp [swL]⟩]
  have hd : ('-' :: '-' :: '-' :: '\n' :: body).drop 3 = '\n' :: body := rfl
  rw [hd]
  unfold matchWsNl
  rw [List.takeWhile_cons, List.dropWhile_cons]
  simp only [show pyIsSpace '\n' = true from rfl, if_true]
  rw [hbw.1, hbw.2]
  simp

/-- The close search over the joined metadata lines finds exactly the
closing delimiter, accumulating the block as group 1. -/
theorem findCloseFM_main : ∀ (ls : List Str) (gacc body : Str), ls ≠ [] →
    (∀ l ∈ ls, ':' ∈ l ∧ '\n' ∉ l) → bodyHeadOK body = true →
    findCloseFM gacc (joinNl ls ++ ('\n' :: '-' :: '-' :: '-' :: '\n' :: body)) =
      some (gacc.reverse ++ joinNl ls, body) := by
  intro ls
  induction ls with
  | nil => intro gacc body hne _ _; exact absurd rfl hne
  | cons l t ih =>
    intro gacc body _ hall hb
    obtain ⟨hcl, hnl⟩ := hall l (List.mem_cons_self l t)
    cases t with
    | nil =>
      have hj : joinNl [l] = l := rfl
      rw [hj, findCloseFM_skip l gacc _ hnl, findCloseFM_term _ body hb]
      simp
    | cons l2 t' =>
      have hj : joinNl (l :: l2 :: t') = l ++ '\n' :: joinNl (l2 :: t') := by
        rw [joinNl_cons]
        simp
      rw [hj]
      have hassoc : (l ++ '\n' :: joinNl (l2 :: t')) ++
          ('\n' :: '-' :: '-' :: '-' :: '\n' :: body) =
          l ++ ('\n' :: (joinNl (l2 :: t') ++ ('\n' :: '-' :: '-' :: '-' :: '\n' :: body))) := by
        simp
      rw [hassoc, findCloseFM_skip l gacc _ hnl]
      obtain ⟨hcl2, hnl2⟩ := hall l2 (by simp)
      have hdec : joinNl (l2 :: t') ++ ('\n' :: '-' :: '-' :: '-' :: '\n' :: body) =
          l2 ++ ((if t'.isEmpty then [] else '\n' :: joinNl t') ++
            ('\n' :: '-' :: '-' :: '-' :: '\n' :: body)) := by
        rw [joinNl_cons]
        simp
      rw [hdec, findCloseFM_line_step _ _ hcl2 hnl2, ← hdec]
      rw [ih ('\n' :: (l.reverse ++ gacc)) body (by simp)
        (fun x hx => hall x (List.mem_cons_of_mem l hx)) hb]
      simp [hj]

/-- No opening-delimiter candidate arises while the whitespace scan sees no
newline. -/
theorem openRemsAux_nil : ∀ (x : Str), '\n' ∉ x.takeWhile pyIsSpace →
    openRemsAux x = [] := by
  intro x
  induction x with
  | nil => intro _; rfl
  | cons c rest ih =>
    intro h
    unfold openRemsAux
    by_cases hs : pyIsSpace c
    · rw [List.takeWhile_cons, if_pos hs] at h
      have hc : c ≠ '\n' := fun he => h (he ▸ List.mem_cons_self c _)
      rw [if_pos hs, if_neg hc, ih (fun hm => h (List.mem_cons_of_mem c hm))]
      rfl
    · rw [if_neg hs]

/-- The metadata regex matches a well-formed front-matter document with the
joined key-value lines as group 1 and the body as remainder. -/
theorem metaMatch_main (ls : List Str) (body : Str) (hne : ls ≠ [])
    (hall : ∀ l ∈ ls, ':' ∈ l ∧ '\n' ∉ l) (hb : bodyHeadOK body = true) :
    metaMatch (fmText ls body) = some (joinNl ls, body) := by
  obtain ⟨l, t, rfl⟩ : ∃ l t, ls = l :: t := by
    cases ls with
    | nil => exact absurd rfl hne
    | cons l t => exact ⟨l, t, rfl⟩
  obtain ⟨hcl, hnl⟩ := hall l (List.mem_cons_self l t)
  have hshape : fmText (l :: t) body =
      '-' :: '-' :: '-' :: '\n' ::
        (joinNl (l :: t) ++ ('\n' :: '-' :: '-' :: '-' :: '\n' :: body)) := by
    unfold fmText
    simp
  rw [hshape]
  unfold metaMatch
  rw [if_pos (by simp [swL])]
  have hdrop : ('-' :: '-' :: '-' :: '\n' ::
      (joinNl (l :: t) ++ ('\n' :: '-' :: '-' :: '-' :: '\n' :: body))).drop 3 =
      '\n' :: (joinNl (l :: t) ++ ('\n' :: '-' :: '-' :: '-' :: '\n' :: body)) := rfl
  rw [hdrop]
  have hopen : openRemsAux ('\n' ::
      (joinNl (l :: t) ++ ('\n' :: '-' :: '-' :: '-' :: '\n' :: body))) =
      [joinNl (l :: t) ++ ('\n' :: '-' :: '-' :: '-' :: '\n' :: body)] := by
    unfold openRemsAux
    rw [if_pos (by decide), if_pos rfl]
    have hX : openRemsAux (joinNl (l :: t) ++ ('\n' :: '-' :: '-' :: '-' :: '\n' :: body)) =
        [] := by
      refine openRemsAux_nil _ ?_
      have hdec : joinNl (l :: t) ++ ('\n' :: '-' :: '-' :: '-' :: '\n' :: body) =
          l ++ ((if t.isEmpty then [] else '\n' :: joinNl t) ++
            ('\n' :: '-' :: '-' :: '-' :: '\n' :: body)) := by
        rw [joinNl_cons]
        simp
      rw [hdec, takeWhile_append_inside _ hcl (by decide)]
      intro hm
      exact hnl ((List.takeWhile_sublist _).mem hm)
    rw [hX]
    rfl
  rw [hopen]
  show firstSomeFM (findCloseFM []) _ = _
  rw [List.reverse_singleton]
  unfold firstSomeFM
  rw [findCloseFM_main (l :: t) [] body (by simp) hall hb]
  rfl

/-- A character failing the predicate survives `dropWhile`. -/
theorem mem_dropWhile_of_not {p : Char → Bool} {c : Char} :
    ∀ {l : Str}, c ∈ l → p c = false → c ∈ l.dropWhile p := by
  intro l
  induction l with
  | nil => intro h _; exact absurd h (List.not_mem_nil c)
  | cons x l' ih =>
    intro h hpc
    rw [List.dropWhile_cons]
    by_cases hx : p x
    · rcases List.mem_cons.mp h with he | hm
      · exact absurd (he ▸ hx) (by simp [hpc])
      · simp only [hx, if_true]
        exact ih hm hpc
    · simp only [hx, if_false]
      exact h

/-- Folding the metadata-line processor over the split of the
trailing-stripped joined lines equals folding it over the lines
themselves. -/
theorem foldl_procLine_rstrip_join : ∀ (ls : List Str) (d : List (Str × Str)), ls ≠ [] →
    (∀ l ∈ ls, ':' ∈ l ∧ '\n' ∉ l) →
    (splitLinesL (rstripL (joinNl ls))).foldl procLine d = ls.foldl procLine d := by
  intro ls
  induction ls with
  | nil => intro d hne _; exact absurd rfl hne
  | cons l t ih =>
    intro d _ hall
    obtain ⟨hcl, hnl⟩ := hall l (List.mem_cons_self l t)
    cases t with
    | nil =>
      have hj : joinNl [l] = l := rfl
      rw [hj]
      have hmem : '\n' ∉ rstripL l := by
        intro hm
        unfold rstripL at hm
        rw [List.mem_reverse] at hm
        exact hnl (by
          have := (List.dropWhile_sublist _).mem hm
          rwa [List.mem_reverse] at this)
      rw [splitLinesL_no_nl hmem]
      show procLine d (rstripL l) = procLine d l
      exact procLine_rstrip d l
    | cons l2 t' =>
      have hj : joinNl (l :: l2 :: t') = l ++ '\n' :: joinNl (l2 :: t') := by
        rw [joinNl_cons]
        simp
      rw [hj]
      obtain ⟨hcl2, -⟩ := hall l2 (by simp)
      have hcolon : ':' ∈ '\n' :: joinNl (l2 :: t') := by
        have : ':' ∈ joinNl (l2 :: t') := by
          rw [joinNl_cons]
          exact List.mem_append.mpr (Or.inl hcl2)
        exact List.mem_cons_of_mem _ this
      have hr1 : rstripL (l ++ '\n' :: joinNl (l2 :: t')) =
          l ++ rstripL ('\n' :: joinNl (l2 :: t')) :=
        rstripL_append_keep l ⟨':', hcolon, by decide⟩
      have hr2 : rstripL ('\n' :: joinNl (l2 :: t')) = '\n' :: rstripL (joinNl (l2 :: t')) := by
        have : ':' ∈ joinNl (l2 :: t') := by
          rw [joinNl_cons]
          exact List.mem_append.mpr (Or.inl hcl2)
        have h := rstripL_append_keep (a := ['\n']) (b := joinNl (l2 :: t'))
          ⟨':', this, by decide⟩
        simpa using h
      rw [hr1, hr2, splitLinesL_append_nl _ hnl]
      show (splitLinesL (rstripL (joinNl (l2 :: t')))).foldl procLine (procLine d l) =
        (l2 :: t').foldl procLine (procLine d l)
      exact ih (procLine d l) (by simp) (fun x hx => hall x (List.mem_cons_of_mem l hx))

/-- Folding over the split of the stripped metadata block equals folding over
the original lines. -/
theorem foldl_procLine_strip_join (ls : List Str) (d : List (Str × Str)) (hne : ls ≠ [])
    (hall : ∀ l ∈ ls, ':' ∈ l ∧ '\n' ∉ l) :
    (splitLinesL (pyStripL (joinNl ls))).foldl procLine d = ls.foldl procLine d := by
  obtain ⟨l, t, rfl⟩ : ∃ l t, ls = l :: t := by
    cases ls with
    | nil => exact absurd rfl hne
    | cons l t => exact ⟨l, t, rfl⟩
  obtain ⟨hcl, hnl⟩ := hall l (List.mem_cons_self l t)
  have hl1 : lstripL (joinNl (l :: t)) = joinNl (lstripL l :: t) := by
    rw [joinNl_cons, joinNl_cons]
    show List.dropWhile pyIsSpace (l ++ _) = _
    rw [List.dropWhile_append, if_neg]
    · rfl
    · intro hemp
      rw [List.isEmpty_eq_true, List.dropWhile_eq_nil_iff] at hemp
      exact absurd (hemp ':' hcl) (by decide)
  have hstrip : pyStripL (joinNl (l :: t)) = rstripL (joinNl (lstripL l :: t)) := by
    unfold pyStripL
    rw [hl1]
  rw [hstrip]
  have hall' : ∀ x ∈ lstripL l :: t, ':' ∈ x ∧ '\n' ∉ x := by
    intro x hx
    rcases List.mem_cons.mp hx with he | hm
    · subst he
      refine ⟨mem_dropWhile_of_not hcl (by decide), ?_⟩
      intro hm2
      exact hnl ((List.dropWhile_sublist _).mem hm2)
    · exact hall x (List.mem_cons_of_mem l hm)
  rw [foldl_procLine_rstrip_join (lstripL l :: t) d (by simp) hall']
  show t.foldl procLine (procLine d (lstripL l)) = (l :: t).foldl procLine d
  rw [procLine_lstrip d l]
  rfl

/-- On a line containing a colon, the code's per-line processing (strip the
line, then split at the first colon, trim, unquote) agrees with the
specification's description (split the raw line at its first colon, trim,
unquote). -/
theorem procLine_eq_specLineKV (d : List (Str × Str)) (l : Str) (hcl : ':' ∈ l) :
    procLine d l = specLineKV d l := by
  have hw : ∀ a ∈ l.takeWhile pyIsSpace, pyIsSpace a := fun a ha => List.mem_takeWhile_imp ha
  obtain ⟨hdm, hsfx⟩ := rstripL_decomp (lstripL l)
  set s := pyStripL l with hs
  set sfx := ((lstripL l).reverse.takeWhile pyIsSpace).reverse with hsfxdef
  have hdecomp : l = l.takeWhile pyIsSpace ++ (s ++ sfx) := by
    conv_lhs => rw [← List.takeWhile_append_dropWhile pyIsSpace l]
    congr 1
  have hcs : ':' ∈ s := by
    rcases List.mem_append.mp (hdecomp ▸ hcl) with h1 | h2
    · exact absurd (hw ':' h1) (by decide)
    · rcases List.mem_append.mp h2 with h3 | h4
      · exact h3
      · exact absurd (hsfx ':' h4) (by decide)
  have hqws : ∀ a ∈ l.takeWhile pyIsSpace, (fun c => decide (c ≠ ':')) a = true := by
    intro a ha
    have := hw a ha
    simp only [decide_eq_true_eq]
    intro he
    exact absurd (he ▸ this) (by decide)
  have hkey : (l.takeWhile (fun c => decide (c ≠ ':'))) =
      l.takeWhile pyIsSpace ++ s.takeWhile (fun c => decide (c ≠ ':')) := by
    conv_lhs => rw [hdecomp]
    rw [List.takeWhile_append_of_pos hqws]
    congr 1
    exact takeWhile_append_inside sfx hcs (by decide)
  have hval : (l.dropWhile (fun c => decide (c ≠ ':'))) =
      s.dropWhile (fun c => decide (c ≠ ':')) ++ sfx := by
    conv_lhs => rw [hdecomp]
    rw [List.dropWhile_append_of_pos hqws, List.dropWhile_append, if_neg]
    intro hemp
    rw [List.isEmpty_eq_true, List.dropWhile_eq_nil_iff] at hemp
    have := hemp ':' hcs
    simp at this
  have hune : s.dropWhile (fun c => decide (c ≠ ':')) ≠ [] := by
    intro hemp
    rw [List.dropWhile_eq_nil_iff] at hemp
    have := hemp ':' hcs
    simp at this
  unfold procLine specLineKV
  rw [if_pos (List.elem_iff.mpr hcs)]
  rw [← hs, hkey, hval]
  rw [pyStripL_front_ws _ hw]
  congr 1
  obtain ⟨x, u', hu⟩ : ∃ x u', s.dropWhile (fun c => decide (c ≠ ':')) = x :: u' := by
    cases hc : s.dropWhile (fun c => decide (c ≠ ':')) with
    | nil => exact absurd hc hune
    | cons x u' => exact ⟨x, u', rfl⟩
  rw [hu]
  show stripQuotes (pyStripL u') = stripQuotes (pyStripL (u' ++ sfx))
  rw [pyStripL_ws_suffix _ hsfx]

/-- Folding the code's processor equals folding the specification's mapping
over colon-containing lines. -/
theorem foldl_procLine_eq_spec : ∀ (ls : List Str) (d : List (Str × Str)),
    (∀ l ∈ ls, ':' ∈ l) → ls.foldl procLine d = ls.foldl specLineKV d := by
  intro ls
  induction ls with
  | nil => intro d _; rfl
  | cons l t ih =>
    intro d hall
    show t.foldl procLine (procLine d l) = t.foldl specLineKV (specLineKV d l)
    rw [procLine_eq_specLineKV d l (hall l (List.mem_cons_self l t))]
    exact ih _ (fun x hx => hall x (List.mem_cons_of_mem l hx))

/-- C4 (counterexample): the input `---\na: b\n---` begins with a delimiter
line, one key-value line and a matching terminator line, so the claim maps
`a` to `b` with empty body; but the metadata regex requires a newline after
the closing delimiter, so the code parses nothing and returns the entire
input as body. -/
theorem C4_cex_terminator_at_eof :
    parse_metadata (("---\na: b\n---").data) = ([], ("---\na: b\n---").data) ∧
      [("a: b").data].foldl specLineKV [] = [((("a").data), (("b").data))] := by
  refine ⟨by decide, by decide⟩

/-- C4 (amended): (a) for every document that begins at position zero with a
triple-dash delimiter line, followed by one or more `key: value` lines (each
containing a colon), followed by a matching triple-dash terminator line
ending in a newline, and whose remaining text does not begin with a
whitespace character, `parse_metadata` returns the mapping obtained by
splitting each line on its first colon with key and value whitespace-trimmed
and one matching pair of surrounding quotes stripped from the value, together
with the remaining text as body; (b) for every text that does not start with
a triple-dash delimiter at offset zero it returns the empty mapping and the
entire input as body.  (The claim's zero-line case, a terminator at
end-of-input without a trailing newline, and bodies beginning with
whitespace are not handled as claimed: see the counterexample.) -/
theorem C4_front_matter_contract :
    (∀ (ls : List Str) (body : Str), ls ≠ [] →
        (∀ l ∈ ls, l.contains ':' = true ∧ l.contains '\n' = false) →
        bodyHeadOK body = true →
        parse_metadata (fmText ls body) = (ls.foldl specLineKV [], body)) ∧
      (∀ text : Str, swL (("---").data) text = false → parse_metadata text = ([], text)) := by
  constructor
  · intro ls body hne hall hb
    have hall' : ∀ l ∈ ls, ':' ∈ l ∧ '\n' ∉ l := by
      intro l hl
      obtain ⟨h1, h2⟩ := hall l hl
      refine ⟨List.elem_iff.mp h1, ?_⟩
      intro hm
      have hx : l.contains '\n' = true := List.elem_iff.mpr hm
      rw [h2] at hx
      exact Bool.false_ne_true hx
    unfold parse_metadata
    rw [metaMatch_main ls body hne hall' hb]
    show ((splitLinesL (pyStripL (joinNl ls))).foldl procLine [], body) =
      (ls.foldl specLineKV [], body)
    rw [foldl_procLine_strip_join ls [] hne hall']
    rw [foldl_procLine_eq_spec ls [] (fun l hl => (hall' l hl).1)]
  · intro text h
    unfold parse_metadata metaMatch
    rw [if_neg (by simp [h])]

/-- C4 witness: one key-value line and a plain body. -/
theorem C4_front_matter_contract_witness :
    parse_metadata (fmText [("title: Foo").data] (("Body").data)) =
      ([("title: Foo").data].foldl specLineKV [], ("Body").data) :=
  C4_front_matter_contract.1 [("title: Foo").data] (("Body").data)
    (by decide) (by decide) (by decide)
